import Mathlib

/-!
Verification development for the `SharedUtils` resilient WebSocket client
(`WebSocketClient.ts`) and its correlation-id generator (`SerializedId.ts`).

The stateful TypeScript class is shallowly embedded as a Lean state record
plus one pure transition function per event handler / public method.  Event
timers and promise callbacks are made explicit:

* every scheduled `setTimeout` callback of `registerResolver` becomes a
  pending entry `(token, messageId, fireAt)`, consumed by a `fire` event;
* every promise `resolve` function handed to `registerResolver` is identified
  by a fresh numeric token; invoking it appends `(token, value)` to a ghost
  `calls` log (`none` models the `undefined` sentinel);
* `Date.now()` values are passed in as explicit `Int` arguments.

JavaScript `Map` get/set/delete is embedded as an association list with
unique keys (`mapLookup`, `mapSet`, `mapErase`); the client never iterates
the resolver map, so only those three operations matter.
-/

namespace SharedUtils

/-! ### Association-list embedding of the JavaScript `Map<string, _>` -/

/-- Lookup of `Map.get`: first entry with the given key. -/
def mapLookup (m : List (String × Nat)) (k : String) : Option Nat :=
  match m with
  | [] => none
  | (k', v) :: rest => if k' = k then some v else mapLookup rest k

/-- `Map.delete`: drop every entry with the given key. -/
def mapErase (m : List (String × Nat)) (k : String) : List (String × Nat) :=
  m.filter (fun p => p.1 ≠ k)

/-- `Map.set`: replace any existing binding of `k` by `(k, v)`. -/
def mapSet (m : List (String × Nat)) (k : String) (v : Nat) : List (String × Nat) :=
  mapErase m k ++ [(k, v)]

/-! ### Resolver registry state (`#resolverQueue` plus scheduled timeouts) -/

/-- State of the promise-resolver subsystem of `WebSocketClient`.

* `queue` embeds `#resolverQueue : Map<string, (result) => void>`, with each
  resolver function identified by the numeric token issued at registration;
* `timeouts` holds the not-yet-fired `setTimeout` callbacks created by
  `registerResolver`: `(token, messageId, fireAt)`;
* `nextTok` is the next fresh resolver token (ghost identity of the promise);
* `calls` is the ghost log of resolver invocations: `(token, some r)` for an
  external resolution with `r`, `(token, none)` for the `undefined` sentinel. -/
structure ResolverState where
  queue : List (String × Nat)
  timeouts : List (Nat × String × Int)
  nextTok : Nat
  calls : List (Nat × Option Nat)
deriving DecidableEq, Repr

/-- The resolver registry of a freshly constructed client. -/
def rinit : ResolverState := { queue := [], timeouts := [], nextTok := 0, calls := [] }

/-- `registerResolver(messageId, resolver, timeoutMs)`: stores the resolver
under `messageId` (overwriting any previous entry, as `Map.set` does) and
schedules a timeout that will fire at `now + timeoutMs`. -/
def registerResolver (now : Int) (messageId : String) (timeoutMs : Int)
    (s : ResolverState) : ResolverState :=
  { queue := mapSet s.queue messageId s.nextTok
    timeouts := s.timeouts ++ [(s.nextTok, messageId, now + timeoutMs)]
    nextTok := s.nextTok + 1
    calls := s.calls }

/-- `resolvePromise(messageId, result)`: if `messageId` is registered, invoke
its resolver with `result` and delete the entry; otherwise only log. -/
def resolvePromise (messageId : String) (result : Nat) (s : ResolverState) : ResolverState :=
  match mapLookup s.queue messageId with
  | some tok =>
    { s with calls := s.calls ++ [(tok, some result)]
             queue := mapErase s.queue messageId }
  | none => s

/-- First pending timeout with the given token, if any. -/
def findTimeout (ts : List (Nat × String × Int)) (tok : Nat) : Option (String × Int) :=
  match ts with
  | [] => none
  | (t, i, f) :: rest => if t = tok then some (i, f) else findTimeout rest tok

/-- The `setTimeout` callback scheduled by `registerResolver` fires: it looks
up the *current* entry for the captured `messageId`; if one exists it is
invoked with `undefined` and deleted.  The scheduled timeout itself is
consumed either way. -/
def fireTimeout (tok : Nat) (s : ResolverState) : ResolverState :=
  match findTimeout s.timeouts tok with
  | none => s
  | some (messageId, _) =>
    let s' := { s with timeouts := s.timeouts.filter (fun t => t.1 ≠ tok) }
    match mapLookup s'.queue messageId with
    | some enqueued =>
      { s' with calls := s'.calls ++ [(enqueued, none)]
                queue := mapErase s'.queue messageId }
    | none => s'

/-- Events observable by the resolver registry. -/
inductive REvent where
  | register (now : Int) (messageId : String) (timeoutMs : Int)
  | resolve (messageId : String) (result : Nat)
  | fire (tok : Nat)
deriving DecidableEq, Repr

/-- One resolver-registry step. -/
def rstep (e : REvent) (s : ResolverState) : ResolverState :=
  match e with
  | .register now messageId timeoutMs => registerResolver now messageId timeoutMs s
  | .resolve messageId result => resolvePromise messageId result s
  | .fire tok => fireTimeout tok s

/-- Run a list of resolver events in order. -/
def rrun (evs : List REvent) (s : ResolverState) : ResolverState :=
  evs.foldl (fun s e => rstep e s) s

/-- Whether an event is a (re)registration of the given message id. -/
def isRegisterOf (messageId : String) (e : REvent) : Bool :=
  match e with
  | .register _ i _ => i = messageId
  | _ => false

/-- Ghost log of the invocations of the resolver identified by `tok`. -/
def callsFor (tok : Nat) (s : ResolverState) : List (Option Nat) :=
  (s.calls.filter (fun c => c.1 = tok)).map Prod.snd

/-! ### The `WebSocketClient` state and its event handlers -/

/-- `QueueItem` of `WebSocketClient.ts`: enqueue timestamp plus the already
serialized message body. -/
structure QueueItem where
  time : Int
  message : String
deriving DecidableEq, Repr

/-- Behaviour-relevant part of `IWebSocketClientOptions` (callbacks, URL and
client name only feed logging / the foreign socket and are omitted).  Optional
fields stay `Option`; the handlers apply the same defaults as the source
(`?? 30`, JavaScript falsiness, `?? 0`). -/
structure ClientOptions where
  reconnectIntervalSeconds : Option Int
  messageQueueing : Option Bool
  messageMaxQueueSeconds : Option Int
deriving DecidableEq, Repr

/-- Shallow embedding of a `WebSocketClient` instance.

* `socket` embeds `#socket`: `none` = `undefined`, `some true` = a handle
  whose `close()` we have not called, `some false` = a handle after `close()`;
* `storedHandle` embeds `#reconnectIntervalHandle`, `liveTimers` is the ghost
  set of interval timers that are actually live in the runtime, and
  `nextHandle` issues fresh (nonzero) interval handles;
* `sent` is the ghost log of `socket.send` payloads, `connectAttempts` the
  ghost count of `connect()` executions. -/
structure Client where
  options : ClientOptions
  socket : Option Bool
  connected : Bool
  messageQueue : List QueueItem
  storedHandle : Nat
  liveTimers : List Nat
  nextHandle : Nat
  resolver : ResolverState
  shouldReconnect : Bool
  sent : List String
  connectAttempts : Nat
deriving DecidableEq, Repr

/-- Field state of a freshly constructed client (before `init()`). -/
def mkClient (opts : ClientOptions) : Client :=
  { options := opts, socket := none, connected := false, messageQueue := []
    storedHandle := 0, liveTimers := [], nextHandle := 1, resolver := rinit
    shouldReconnect := false, sent := [], connectAttempts := 0 }

/-- `#socket?.close()`: closing marks the handle, it does not discard it. -/
def closeSocket (s : Option Bool) : Option Bool :=
  s.map (fun _ => false)

namespace Client

/-- `stopConnectLoop()`: `clearInterval` on the stored handle. -/
def stopConnectLoop (c : Client) : Client :=
  { c with liveTimers := c.liveTimers.filter (fun h => h ≠ c.storedHandle) }

/-- `connect()`: closes and discards any previous socket, then opens a fresh
one and installs the event handlers. -/
def connect (c : Client) : Client :=
  { c with socket := some true, connectAttempts := c.connectAttempts + 1 }

/-- `startConnectLoop(immediate)`: always cancels the previous interval first,
stores a fresh interval handle, and only when `immediate` also calls
`connect()` right away. -/
def startConnectLoop (immediate : Bool) (c : Client) : Client :=
  let c1 := stopConnectLoop c
  let c2 := { c1 with
    storedHandle := c1.nextHandle
    liveTimers := c1.liveTimers ++ [c1.nextHandle]
    nextHandle := c1.nextHandle + 1 }
  if immediate then connect c2 else c2

/-- `init()`. -/
def init (c : Client) : Client :=
  startConnectLoop true { c with shouldReconnect := true }

/-- `reconnect()`. -/
def reconnect (c : Client) : Client :=
  startConnectLoop true
    { c with shouldReconnect := true, socket := closeSocket c.socket }

/-- `disconnect()`. -/
def disconnect (c : Client) : Client :=
  let c1 := stopConnectLoop { c with shouldReconnect := false }
  { c1 with socket := none }

/-- `send(body)` with `body` already serialized to a string (the
`JSON.stringify` of non-string bodies happens before this point). -/
def send (now : Int) (body : String) (c : Client) : Client :=
  if c.connected then
    { c with sent := c.sent ++ (if c.socket.isSome then [body] else []) }
  else if c.options.messageQueueing.getD false then
    { c with messageQueue := c.messageQueue ++ [⟨now, body⟩] }
  else
    c

/-- The queue pass of the `onOpen` handler: for each item in insertion order,
send it unless a positive age limit is set and exceeded. -/
def flushSend (sock : Option Bool) (maxTime now : Int) : List QueueItem → List String
  | [] => []
  | item :: rest =>
    if maxTime = 0 ∨ now - item.time ≤ maxTime then
      (if sock.isSome then [item.message] else []) ++ flushSend sock maxTime now rest
    else
      flushSend sock maxTime now rest

/-- The `onOpen` handler: mark connected, cancel the interval, flush the
message queue (skipping over-age items when a limit is set), then clear it. -/
def handleOpen (now : Int) (c : Client) : Client :=
  let c1 := stopConnectLoop { c with connected := true }
  let maxTime := (c1.options.messageMaxQueueSeconds.getD 0) * 1000
  { c1 with sent := c1.sent ++ flushSend c1.socket maxTime now c1.messageQueue
            messageQueue := [] }

/-- The `onClose` handler: mark disconnected; restart the interval (without an
immediate attempt) only when `#shouldReconnect` holds. -/
def handleClose (c : Client) : Client :=
  let c1 := { c with connected := false }
  if c1.shouldReconnect then startConnectLoop false c1 else c1

/-- The `onError` handler: force-close the socket and restart the interval —
with no `immediate` argument and no `#shouldReconnect` check. -/
def handleError (c : Client) : Client :=
  startConnectLoop false { c with socket := closeSocket c.socket }

/-- A tick of the interval with handle `h`: only a live timer fires, and the
interval's callback is `connect`. -/
def tick (h : Nat) (c : Client) : Client :=
  if h ∈ c.liveTimers then connect c else c

/-- `sendMessageWithPromise(body, messageId, timeoutMs)`: registers the fresh
promise's resolver, then sends. -/
def sendMessageWithPromise (now : Int) (body : String) (messageId : String)
    (timeoutMs : Int) (c : Client) : Client :=
  send now body { c with resolver := registerResolver now messageId timeoutMs c.resolver }

end Client

/-- Events observable by a client instance. -/
inductive CEvent where
  | init
  | reconnect
  | disconnect
  | send (now : Int) (body : String)
  | tick (h : Nat)
  | sockOpen (now : Int)
  | sockClose
  | sockError
  | sockMessage
  | sendWithPromise (now : Int) (body : String) (messageId : String) (timeoutMs : Int)
  | resolveP (messageId : String) (result : Nat)
  | rfire (tok : Nat)
deriving DecidableEq, Repr

/-- One client step. -/
def cstep (e : CEvent) (c : Client) : Client :=
  match e with
  | .init => c.init
  | .reconnect => c.reconnect
  | .disconnect => c.disconnect
  | .send now body => c.send now body
  | .tick h => c.tick h
  | .sockOpen now => c.handleOpen now
  | .sockClose => c.handleClose
  | .sockError => c.handleError
  | .sockMessage => c
  | .sendWithPromise now body messageId timeoutMs =>
    c.sendMessageWithPromise now body messageId timeoutMs
  | .resolveP messageId result => { c with resolver := resolvePromise messageId result c.resolver }
  | .rfire tok => { c with resolver := fireTimeout tok c.resolver }

/-- Run a list of client events in order. -/
def crun (evs : List CEvent) (c : Client) : Client :=
  evs.foldl (fun c e => cstep e c) c

/-! ### `SerializedId.ts` and `ValueUtils.kebabCase` -/

/-- Little-endian base-10 digits of `n`, with explicit fuel so the definition
is structurally recursive (then kernel-computable); `fuel = n` is enough. -/
def decDigitsRev (fuel n : Nat) : List Nat :=
  match fuel with
  | 0 => []
  | f + 1 => if n = 0 then [] else n % 10 :: decDigitsRev f (n / 10)

/-- Decimal string of a natural number, the model of the JavaScript template
interpolation of the integer counter in a template literal. -/
def natLiteral (n : Nat) : String :=
  if n = 0 then String.mk ['0']
  else String.mk ((decDigitsRev n n).reverse.map Nat.digitChar)

/-- `ValueUtils.kebabCase(str)` = `str.toLowerCase().replace(/\s/g, '-')`. -/
def kebabCase (s : String) : String :=
  String.mk ((s.data.map Char.toLower).map (fun ch => if ch.isWhitespace then '-' else ch))

/-- Model of JavaScript `String.prototype.trim`: strip whitespace at both ends. -/
def jsTrim (s : String) : String :=
  String.mk (((s.data.dropWhile Char.isWhitespace).reverse.dropWhile Char.isWhitespace).reverse)

/-- The process-wide mutable state of `SerializedId`: its `idx` counter. -/
structure SerializedIdState where
  idx : Nat
deriving DecidableEq, Repr

/-- `SerializedId.next(tag?)`: increments `idx`, then returns either
`` `${ValueUtils.kebabCase(tag.trim())}-${idx}` `` when `tag` is truthy
(present and nonempty) or `` `message-id-${idx}` ``.  Returns the produced
id together with the updated counter state. -/
def SerializedId.next (tag : Option String) (s : SerializedIdState) :
    String × SerializedIdState :=
  let idx := s.idx + 1
  (match tag with
   | some t =>
     if t.data.isEmpty then "message-id-" ++ natLiteral idx
     else kebabCase (jsTrim t) ++ "-" ++ natLiteral idx
   | none => "message-id-" ++ natLiteral idx,
   ⟨idx⟩)

/-- The counter state after one `SerializedId.next` call. -/
def SerializedId.nextState (tag : Option String) (s : SerializedIdState) : SerializedIdState :=
  (SerializedId.next tag s).2

/-- The id returned by the `i`-th call (0-based) of a sequence of
`SerializedId.next` calls that all pass the same `tag`. -/
def SerializedId.idAtCall (tag : Option String) (s : SerializedIdState) (i : Nat) : String :=
  (SerializedId.next tag ((SerializedId.nextState tag)^[i] s)).1

/-- `WebSocketClient.getNextMessageId()` delegates to `SerializedId.next`
with the configured client name as the scope tag. -/
def getNextMessageId (clientName : String) (s : SerializedIdState) :
    String × SerializedIdState :=
  SerializedId.next (some clientName) s

/-! ### Lemmas: association-map operations -/

theorem mapErase_cons (a : String) (b : Nat) (rest : List (String × Nat)) (k : String) :
    mapErase ((a, b) :: rest) k
      = if a = k then mapErase rest k else (a, b) :: mapErase rest k := by
  by_cases h : a = k <;> simp [mapErase, List.filter, h]

theorem mapLookup_cons (a : String) (b : Nat) (rest : List (String × Nat)) (k : String) :
    mapLookup ((a, b) :: rest) k = if a = k then some b else mapLookup rest k := rfl

theorem mapLookup_append (l1 l2 : List (String × Nat)) (k : String) :
    mapLookup (l1 ++ l2) k
      = match mapLookup l1 k with
        | some v => some v
        | none => mapLookup l2 k := by
  induction l1 with
  | nil => simp [mapLookup]
  | cons p rest ih =>
    obtain ⟨a, b⟩ := p
    by_cases h : a = k <;> simp [mapLookup_cons, h, ih]

theorem mapLookup_mapErase_self (m : List (String × Nat)) (k : String) :
    mapLookup (mapErase m k) k = none := by
  induction m with
  | nil => simp [mapErase, mapLookup]
  | cons p rest ih =>
    obtain ⟨a, b⟩ := p
    rw [mapErase_cons]
    by_cases ha : a = k
    · simpa [ha] using ih
    · simpa [mapLookup_cons, ha] using ih

theorem mapLookup_mapErase_ne (m : List (String × Nat)) (k k' : String) (h : k' ≠ k) :
    mapLookup (mapErase m k) k' = mapLookup m k' := by
  induction m with
  | nil => simp [mapErase, mapLookup]
  | cons p rest ih =>
    obtain ⟨a, b⟩ := p
    rw [mapErase_cons]
    by_cases ha : a = k
    · have ha' : ¬ a = k' := by
        rw [ha]; exact fun hc => h hc.symm
      rw [if_pos ha, mapLookup_cons, if_neg ha']
      exact ih
    · rw [if_neg ha, mapLookup_cons, mapLookup_cons]
      by_cases ha' : a = k'
      · rw [if_pos ha', if_pos ha']
      · rw [if_neg ha', if_neg ha']
        exact ih

theorem mapLookup_mapSet_self (m : List (String × Nat)) (k : String) (v : Nat) :
    mapLookup (mapSet m k v) k = some v := by
  rw [mapSet, mapLookup_append, mapLookup_mapErase_self]
  simp [mapLookup]

theorem mapLookup_mapSet_ne (m : List (String × Nat)) (k k' : String) (v : Nat)
    (h : k' ≠ k) : mapLookup (mapSet m k v) k' = mapLookup m k' := by
  rw [mapSet, mapLookup_append]
  rw [mapLookup_mapErase_ne m k k' h]
  cases hm : mapLookup m k' with
  | some w => simp
  | none => simp [mapLookup, Ne.symm h]

theorem mapLookup_mem {m : List (String × Nat)} {k : String} {v : Nat}
    (h : mapLookup m k = some v) : (k, v) ∈ m := by
  induction m with
  | nil => simp [mapLookup] at h
  | cons p rest ih =>
    obtain ⟨a, b⟩ := p
    by_cases ha : a = k
    · subst ha
      simp [mapLookup] at h
      simp [h]
    · simp [mapLookup, ha] at h
      exact List.mem_cons_of_mem _ (ih h)

theorem mem_mapErase {m : List (String × Nat)} {k : String} {p : String × Nat}
    (h : p ∈ mapErase m k) : p ∈ m ∧ p.1 ≠ k := by
  have := List.of_mem_filter h
  exact ⟨List.mem_of_mem_filter h, by simpa using this⟩

theorem mem_mapSet {m : List (String × Nat)} {k : String} {v : Nat} {p : String × Nat}
    (h : p ∈ mapSet m k v) : p = (k, v) ∨ (p ∈ m ∧ p.1 ≠ k) := by
  rcases List.mem_append.mp h with h' | h'
  · exact Or.inr (mem_mapErase h')
  · simp at h'
    exact Or.inl h'

/-! ### Lemmas: pending timeouts -/

theorem findTimeout_mem {ts : List (Nat × String × Int)} {tok : Nat} {i : String} {f : Int}
    (h : findTimeout ts tok = some (i, f)) : (tok, i, f) ∈ ts := by
  induction ts with
  | nil => simp [findTimeout] at h
  | cons t rest ih =>
    obtain ⟨t1, t2, t3⟩ := t
    by_cases ht : t1 = tok
    · subst ht
      simp [findTimeout] at h
      simp [h.1, h.2]
    · simp [findTimeout, ht] at h
      exact List.mem_cons_of_mem _ (ih h)

theorem findTimeout_isSome_of_mem {ts : List (Nat × String × Int)} {tok : Nat} {i : String}
    {f : Int} (h : (tok, i, f) ∈ ts) : (findTimeout ts tok).isSome := by
  induction ts with
  | nil => simp at h
  | cons t rest ih =>
    obtain ⟨t1, t2, t3⟩ := t
    by_cases ht : t1 = tok
    · simp [findTimeout, ht]
    · rcases List.mem_cons.mp h with h' | h'
      · exact absurd (congrArg Prod.fst h').symm ht
      · simpa [findTimeout, ht] using ih h'

/-! ### Exactly-once settlement of a registered resolver -/

/-- The registration of `messageId` with resolver token `tok` is still live:
the registry maps `messageId` to `tok` (and `tok` only appears there), the
scheduled timeout for `tok` is still pending, no other pending timeout
belongs to `messageId`, and `tok` has never been invoked. -/
def PendingFor (messageId : String) (tok : Nat) (s : ResolverState) : Prop :=
  mapLookup s.queue messageId = some tok ∧
  (∀ p ∈ s.queue, p.2 = tok → p.1 = messageId) ∧
  (∀ t ∈ s.timeouts, t.2.1 = messageId → t.1 = tok) ∧
  (∀ t ∈ s.timeouts, t.1 = tok → t.2.1 = messageId) ∧
  (∃ ft, (tok, messageId, ft) ∈ s.timeouts) ∧
  callsFor tok s = [] ∧
  tok < s.nextTok

/-- The registration of `messageId` with resolver token `tok` has been settled
with value `v`: `messageId` is out of the registry, `tok` appears nowhere in
it, and `tok` has been invoked exactly once, with `v`. -/
def SettledFor (messageId : String) (tok : Nat) (v : Option Nat) (s : ResolverState) : Prop :=
  mapLookup s.queue messageId = none ∧
  (∀ p ∈ s.queue, p.2 ≠ tok) ∧
  (∀ t ∈ s.timeouts, t.2.1 = messageId → t.1 = tok) ∧
  (∀ t ∈ s.timeouts, t.1 = tok → t.2.1 = messageId) ∧
  callsFor tok s = [v] ∧
  tok < s.nextTok

theorem settled_step {messageId : String} {tok : Nat} {v : Option Nat} {s : ResolverState}
    (e : REvent) (hreg : isRegisterOf messageId e = false)
    (hs : SettledFor messageId tok v s) :
    SettledFor messageId tok v (rstep e s) := by
  obtain ⟨h1, h2, h3, h4, h5, h6⟩ := hs
  cases e with
  | register now i tms =>
    have hne : i ≠ messageId := by simpa [isRegisterOf] using hreg
    refine ⟨?_, ?_, ?_, ?_, ?_, ?_⟩
    · show mapLookup (mapSet s.queue i s.nextTok) messageId = none
      rw [mapLookup_mapSet_ne s.queue i messageId s.nextTok (Ne.symm hne)]
      exact h1
    · intro p hp
      rcases mem_mapSet hp with h' | h'
      · rw [h']
        exact Nat.ne_of_gt h6
      · exact h2 p h'.1
    · intro t ht
      rcases List.mem_append.mp ht with h' | h'
      · exact h3 t h'
      · simp at h'
        intro hti
        rw [h'] at hti
        exact absurd hti hne
    · intro t ht
      rcases List.mem_append.mp ht with h' | h'
      · exact h4 t h'
      · simp at h'
        intro hteq
        rw [h'] at hteq
        exact absurd hteq.symm (Nat.ne_of_lt h6)
    · exact h5
    · exact Nat.lt_succ_of_lt h6
  | resolve i r =>
    show SettledFor messageId tok v (resolvePromise i r s)
    cases hl : mapLookup s.queue i with
    | none => simpa [resolvePromise, hl] using ⟨h1, h2, h3, h4, h5, h6⟩
    | some t' =>
      have hi : i ≠ messageId := by
        intro hc
        rw [hc, h1] at hl
        exact Option.noConfusion hl
      have ht' : t' ≠ tok := h2 (i, t') (mapLookup_mem hl)
      refine ⟨?_, ?_, ?_, ?_, ?_, ?_⟩ <;> simp only [resolvePromise, hl]
      · rw [mapLookup_mapErase_ne s.queue i messageId (Ne.symm hi)]
        exact h1
      · intro p hp
        exact h2 p (mem_mapErase hp).1
      · exact h3
      · exact h4
      · simpa [callsFor, List.filter_append, ht'] using h5
      · exact h6
  | fire tok' =>
    show SettledFor messageId tok v (fireTimeout tok' s)
    cases hf : findTimeout s.timeouts tok' with
    | none => simpa [fireTimeout, hf] using ⟨h1, h2, h3, h4, h5, h6⟩
    | some p =>
      obtain ⟨i', f'⟩ := p
      have hmem : (tok', i', f') ∈ s.timeouts := findTimeout_mem hf
      have hfilter : ∀ t ∈ s.timeouts.filter (fun t => t.1 ≠ tok'), t ∈ s.timeouts :=
        fun t ht => List.mem_of_mem_filter ht
      cases hl : mapLookup s.queue i' with
      | none =>
        refine ⟨?_, ?_, ?_, ?_, ?_, ?_⟩ <;> simp only [fireTimeout, hf, hl]
        · exact h1
        · exact h2
        · exact fun t ht => h3 t (hfilter t ht)
        · exact fun t ht => h4 t (hfilter t ht)
        · exact h5
        · exact h6
      | some enq =>
        have hi : i' ≠ messageId := by
          intro hc
          rw [hc, h1] at hl
          exact Option.noConfusion hl
        have henq : enq ≠ tok := h2 (i', enq) (mapLookup_mem hl)
        refine ⟨?_, ?_, ?_, ?_, ?_, ?_⟩ <;> simp only [fireTimeout, hf, hl]
        · rw [mapLookup_mapErase_ne s.queue i' messageId (Ne.symm hi)]
          exact h1
        · intro p hp
          exact h2 p (mem_mapErase hp).1
        · exact fun t ht => h3 t (hfilter t ht)
        · exact fun t ht => h4 t (hfilter t ht)
        · simpa [callsFor, List.filter_append, henq] using h5
        · exact h6

theorem callsFor_calls_append_self (tok : Nat) (v : Option Nat) (q : List (String × Nat))
    (ts : List (Nat × String × Int)) (nt : Nat) (cs : List (Nat × Option Nat)) :
    callsFor tok ⟨q, ts, nt, cs ++ [(tok, v)]⟩ = callsFor tok ⟨q, ts, nt, cs⟩ ++ [v] := by
  simp [callsFor, List.filter_append]

theorem callsFor_calls_append_ne (tok t : Nat) (h : t ≠ tok) (v : Option Nat)
    (q : List (String × Nat)) (ts : List (Nat × String × Int)) (nt : Nat)
    (cs : List (Nat × Option Nat)) :
    callsFor tok ⟨q, ts, nt, cs ++ [(t, v)]⟩ = callsFor tok ⟨q, ts, nt, cs⟩ := by
  simp [callsFor, List.filter_append, h]

theorem callsFor_only_calls (tok : Nat) (s s' : ResolverState) (h : s'.calls = s.calls) :
    callsFor tok s' = callsFor tok s := by
  simp [callsFor, h]

theorem pending_step {messageId : String} {tok : Nat} {s : ResolverState}
    (e : REvent) (hreg : isRegisterOf messageId e = false)
    (hp : PendingFor messageId tok s) :
    (PendingFor messageId tok (rstep e s) ∧ e ≠ REvent.fire tok) ∨
    (∃ r, e = REvent.resolve messageId r ∧ SettledFor messageId tok (some r) (rstep e s)) ∨
    (e = REvent.fire tok ∧ SettledFor messageId tok none (rstep e s)) := by
  obtain ⟨h1, h2, h3, h4, h5, h6, h7⟩ := hp
  cases e with
  | register now i tms =>
    have hne : i ≠ messageId := by simpa [isRegisterOf] using hreg
    refine Or.inl ⟨⟨?_, ?_, ?_, ?_, ?_, ?_, ?_⟩, fun hc => REvent.noConfusion hc⟩
    · show mapLookup (mapSet s.queue i s.nextTok) messageId = some tok
      rw [mapLookup_mapSet_ne s.queue i messageId s.nextTok (Ne.symm hne)]
      exact h1
    · intro p hp'
      rcases mem_mapSet hp' with h' | h'
      · intro hc
        rw [h'] at hc
        exact absurd hc.symm (Nat.ne_of_lt h7)
      · exact h2 p h'.1
    · intro t ht
      rcases List.mem_append.mp ht with h' | h'
      · exact h3 t h'
      · simp at h'
        intro hti
        rw [h'] at hti
        exact absurd hti hne
    · intro t ht
      rcases List.mem_append.mp ht with h' | h'
      · exact h4 t h'
      · simp at h'
        intro hteq
        rw [h'] at hteq
        exact absurd hteq.symm (Nat.ne_of_lt h7)
    · obtain ⟨ft, hft⟩ := h5
      exact ⟨ft, List.mem_append_left _ hft⟩
    · exact h6
    · exact Nat.lt_succ_of_lt h7
  | resolve i r =>
    by_cases hi : i = messageId
    · subst hi
      refine Or.inr (Or.inl ⟨r, rfl, ?_⟩)
      show SettledFor i tok (some r) (resolvePromise i r s)
      refine ⟨?_, ?_, ?_, ?_, ?_, ?_⟩ <;> simp only [resolvePromise, h1]
      · exact mapLookup_mapErase_self s.queue i
      · intro p hp'
        obtain ⟨hmem, hkey⟩ := mem_mapErase hp'
        exact fun hc => hkey (h2 p hmem hc)
      · exact h3
      · exact h4
      · rw [callsFor_calls_append_self]
        rw [callsFor_only_calls tok s ⟨mapErase s.queue i, s.timeouts, s.nextTok, s.calls⟩ rfl]
        rw [h6]
        rfl
      · exact h7
    · cases hl : mapLookup s.queue i with
      | none =>
        refine Or.inl ⟨?_, fun hc => REvent.noConfusion hc⟩
        show PendingFor messageId tok (resolvePromise i r s)
        simp only [resolvePromise, hl]
        exact ⟨h1, h2, h3, h4, h5, h6, h7⟩
      | some t' =>
        have ht' : t' ≠ tok := fun hc => hi (h2 (i, t') (mapLookup_mem hl) hc)
        refine Or.inl ⟨⟨?_, ?_, ?_, ?_, ?_, ?_, ?_⟩, fun hc => REvent.noConfusion hc⟩
          <;> simp only [rstep, resolvePromise, hl]
        · rw [mapLookup_mapErase_ne s.queue i messageId (Ne.symm hi)]
          exact h1
        · intro p hp'
          exact h2 p (mem_mapErase hp').1
        · exact h3
        · exact h4
        · exact h5
        · rw [callsFor_calls_append_ne tok t' ht']
          exact h6
        · exact h7
  | fire tok' =>
    by_cases htk : tok' = tok
    · subst htk
      obtain ⟨ft, hft⟩ := h5
      obtain ⟨⟨i', f'⟩, hf⟩ := Option.isSome_iff_exists.mp (findTimeout_isSome_of_mem hft)
      have hmem : (tok', i', f') ∈ s.timeouts := findTimeout_mem hf
      have hi' : i' = messageId := h4 (tok', i', f') hmem rfl
      subst hi'
      refine Or.inr (Or.inr ⟨rfl, ?_, ?_, ?_, ?_, ?_, ?_⟩) <;>
        simp only [rstep, fireTimeout, hf, h1]
      · exact mapLookup_mapErase_self s.queue i'
      · intro p hp'
        obtain ⟨hmem', hkey⟩ := mem_mapErase hp'
        exact fun hc => hkey (h2 p hmem' hc)
      · exact fun t ht => h3 t (List.mem_of_mem_filter ht)
      · exact fun t ht => h4 t (List.mem_of_mem_filter ht)
      · rw [callsFor_calls_append_self]
        rw [callsFor_only_calls tok' s
          ⟨mapErase s.queue i', s.timeouts.filter (fun t => t.1 ≠ tok'), s.nextTok, s.calls⟩ rfl]
        rw [h6]
        rfl
      · exact h7
    · have hnefire : REvent.fire tok' ≠ REvent.fire tok := by
        intro hc
        injection hc with hc'
        exact htk hc'
      cases hf : findTimeout s.timeouts tok' with
      | none =>
        refine Or.inl ⟨?_, hnefire⟩
        show PendingFor messageId tok (fireTimeout tok' s)
        simp only [fireTimeout, hf]
        exact ⟨h1, h2, h3, h4, h5, h6, h7⟩
      | some p =>
        obtain ⟨i', f'⟩ := p
        have hmem : (tok', i', f') ∈ s.timeouts := findTimeout_mem hf
        have hi' : i' ≠ messageId := by
          intro hc
          exact htk (h3 (tok', i', f') hmem hc)
        have hmemft : ∀ ft', (tok, messageId, ft') ∈ s.timeouts →
            (tok, messageId, ft') ∈ s.timeouts.filter (fun t => t.1 ≠ tok') := by
          intro ft' hft'
          refine List.mem_filter.mpr ⟨hft', ?_⟩
          simp
          exact fun hc => htk hc.symm
        cases hl : mapLookup s.queue i' with
        | none =>
          refine Or.inl ⟨⟨?_, ?_, ?_, ?_, ?_, ?_, ?_⟩, hnefire⟩ <;>
            simp only [rstep, fireTimeout, hf, hl]
          · exact h1
          · exact h2
          · exact fun t ht => h3 t (List.mem_of_mem_filter ht)
          · exact fun t ht => h4 t (List.mem_of_mem_filter ht)
          · obtain ⟨ft, hft⟩ := h5
            exact ⟨ft, hmemft ft hft⟩
          · exact h6
          · exact h7
        | some enq =>
          have henq : enq ≠ tok := fun hc => hi' (h2 (i', enq) (mapLookup_mem hl) hc)
          refine Or.inl ⟨⟨?_, ?_, ?_, ?_, ?_, ?_, ?_⟩, hnefire⟩ <;>
            simp only [rstep, fireTimeout, hf, hl]
          · rw [mapLookup_mapErase_ne s.queue i' messageId (Ne.symm hi')]
            exact h1
          · intro p hp'
            exact h2 p (mem_mapErase hp').1
          · exact fun t ht => h3 t (List.mem_of_mem_filter ht)
          · exact fun t ht => h4 t (List.mem_of_mem_filter ht)
          · obtain ⟨ft, hft⟩ := h5
            exact ⟨ft, hmemft ft hft⟩
          · rw [callsFor_calls_append_ne tok enq henq]
            exact h6
          · exact h7

theorem rrun_cons (e : REvent) (evs : List REvent) (s : ResolverState) :
    rrun (e :: evs) s = rrun evs (rstep e s) := rfl

theorem settled_run {messageId : String} {tok : Nat} {v : Option Nat}
    (evs : List REvent) (s : ResolverState)
    (hreg : ∀ e ∈ evs, isRegisterOf messageId e = false)
    (hs : SettledFor messageId tok v s) :
    SettledFor messageId tok v (rrun evs s) := by
  induction evs generalizing s with
  | nil => exact hs
  | cons e rest ih =>
    rw [rrun_cons]
    exact ih (rstep e s) (fun e' he' => hreg e' (List.mem_cons_of_mem _ he'))
      (settled_step e (hreg e (List.mem_cons_self _ _)) hs)

/-! ### Orphaning of an overwritten resolver (duplicate registration) -/

/-- Token `tok` no longer appears as a value of the resolver registry (and is
not a future token), so no event can ever invoke it again. -/
def OrphanedTok (tok : Nat) (s : ResolverState) : Prop :=
  tok < s.nextTok ∧ ∀ p ∈ s.queue, p.2 ≠ tok

theorem orphan_step {tok : Nat} {s : ResolverState} (e : REvent)
    (h : OrphanedTok tok s) :
    OrphanedTok tok (rstep e s) ∧ callsFor tok (rstep e s) = callsFor tok s := by
  obtain ⟨hlt, hq⟩ := h
  cases e with
  | register now i tms =>
    refine ⟨⟨Nat.lt_succ_of_lt hlt, ?_⟩, ?_⟩
    · intro p hp
      rcases mem_mapSet hp with h' | h'
      · rw [h']
        exact Ne.symm (Nat.ne_of_lt hlt)
      · exact hq p h'.1
    · exact callsFor_only_calls tok s (registerResolver now i tms s) rfl
  | resolve i r =>
    show OrphanedTok tok (resolvePromise i r s) ∧
      callsFor tok (resolvePromise i r s) = callsFor tok s
    cases hl : mapLookup s.queue i with
    | none =>
      simp only [resolvePromise, hl]
      exact ⟨⟨hlt, hq⟩, trivial⟩
    | some t' =>
      have ht' : t' ≠ tok := hq (i, t') (mapLookup_mem hl)
      simp only [resolvePromise, hl]
      refine ⟨⟨hlt, fun p hp => hq p (mem_mapErase hp).1⟩, ?_⟩
      rw [callsFor_calls_append_ne tok t' ht']
      exact callsFor_only_calls tok s ⟨mapErase s.queue i, s.timeouts, s.nextTok, s.calls⟩ rfl
  | fire tok' =>
    show OrphanedTok tok (fireTimeout tok' s) ∧
      callsFor tok (fireTimeout tok' s) = callsFor tok s
    cases hf : findTimeout s.timeouts tok' with
    | none =>
      simp only [fireTimeout, hf]
      exact ⟨⟨hlt, hq⟩, trivial⟩
    | some p =>
      obtain ⟨i', f'⟩ := p
      simp only [fireTimeout, hf]
      cases hl : mapLookup s.queue i' with
      | none =>
        simp only [hl]
        exact ⟨⟨hlt, hq⟩,
          callsFor_only_calls tok s
            ⟨s.queue, s.timeouts.filter (fun t => t.1 ≠ tok'), s.nextTok, s.calls⟩ rfl⟩
      | some enq =>
        have henq : enq ≠ tok := hq (i', enq) (mapLookup_mem hl)
        simp only [hl]
        refine ⟨⟨hlt, fun p hp => hq p (mem_mapErase hp).1⟩, ?_⟩
        rw [callsFor_calls_append_ne tok enq henq]
        exact callsFor_only_calls tok s
          ⟨s.queue, s.timeouts.filter (fun t => t.1 ≠ tok'), s.nextTok, s.calls⟩ rfl

theorem orphan_run {tok : Nat} (evs : List REvent) (s : ResolverState)
    (h : OrphanedTok tok s) : callsFor tok (rrun evs s) = callsFor tok s := by
  induction evs generalizing s with
  | nil => rfl
  | cons e rest ih =>
    rw [rrun_cons]
    obtain ⟨h', heq⟩ := orphan_step e h
    rw [ih (rstep e s) h', heq]

theorem pending_run {messageId : String} {tok : Nat}
    (evs : List REvent) (s : ResolverState)
    (hreg : ∀ k, (hk : k < evs.length) → isRegisterOf messageId (evs.get ⟨k, hk⟩) = true →
      callsFor tok (rrun (evs.take k) s) ≠ [])
    (hp : PendingFor messageId tok s)
    (hf : REvent.fire tok ∈ evs) :
    ∃ v, callsFor tok (rrun evs s) = [v] ∧
      (v = none ∨ ∃ r l1 l2, v = some r ∧ evs = l1 ++ REvent.resolve messageId r :: l2 ∧
        REvent.fire tok ∉ l1) := by
  induction evs generalizing s with
  | nil => cases hf
  | cons e rest ih =>
    rw [rrun_cons]
    have hrege : isRegisterOf messageId e = false := by
      cases hx : isRegisterOf messageId e
      · rfl
      · exact absurd hp.2.2.2.2.2.1 (hreg 0 (Nat.succ_pos rest.length) hx)
    have hregr : ∀ k, (hk : k < rest.length) →
        isRegisterOf messageId (rest.get ⟨k, hk⟩) = true →
        callsFor tok (rrun (rest.take k) (rstep e s)) ≠ [] := by
      intro k hk hse
      exact hreg (k + 1) (Nat.succ_lt_succ hk) hse
    rcases pending_step e hrege hp with ⟨hp', hne⟩ | ⟨r, herel, hs'⟩ | ⟨hefire, hs'⟩
    · have hf' : REvent.fire tok ∈ rest := by
        rcases List.mem_cons.mp hf with h | h
        · exact absurd h.symm hne
        · exact h
      obtain ⟨v, hcalls, hv⟩ := ih (rstep e s) hregr hp' hf'
      refine ⟨v, hcalls, ?_⟩
      rcases hv with h | ⟨r, l1, l2, hvr, hsplit, hnotin⟩
      · exact Or.inl h
      · refine Or.inr ⟨r, e :: l1, l2, hvr, by rw [hsplit]; rfl, ?_⟩
        intro hmem
        rcases List.mem_cons.mp hmem with h | h
        · exact hne h.symm
        · exact hnotin h
    · have horph : OrphanedTok tok (rstep e s) := ⟨hs'.2.2.2.2.2, hs'.2.1⟩
      refine ⟨some r, ?_, Or.inr ⟨r, [], rest, rfl, by simp [herel], List.not_mem_nil _⟩⟩
      rw [orphan_run rest (rstep e s) horph]
      exact hs'.2.2.2.2.1
    · have horph : OrphanedTok tok (rstep e s) := ⟨hs'.2.2.2.2.2, hs'.2.1⟩
      refine ⟨none, ?_, Or.inl rfl⟩
      rw [orphan_run rest (rstep e s) horph]
      exact hs'.2.2.2.2.1

/-- Claim C1: a call of `sendMessageWithPromise` registers a fresh resolver
(token `s.nextTok`); in any subsequent event sequence in which that id is
re-registered only after the promise has settled (if at all) and the
registration's own timeout eventually fires (as the JavaScript runtime
guarantees), the returned promise is settled exactly once — either with the
`undefined` sentinel, or with a result `r` delivered by an external
`resolvePromise(id, r)` that occurred before the timeout fired. -/
theorem sendMessageWithPromise_settles_exactly_once
    (s : ResolverState) (messageId : String) (now timeoutMs : Int) (evs : List REvent)
    (hq : ∀ p ∈ s.queue, p.2 < s.nextTok)
    (hcalls : ∀ cl ∈ s.calls, cl.1 < s.nextTok)
    (hto : ∀ t ∈ s.timeouts, t.1 < s.nextTok)
    (hid : ∀ t ∈ s.timeouts, t.2.1 ≠ messageId)
    (hreg : ∀ k, (hk : k < evs.length) → isRegisterOf messageId (evs.get ⟨k, hk⟩) = true →
      callsFor s.nextTok (rrun (evs.take k) (registerResolver now messageId timeoutMs s)) ≠ [])
    (hfire : REvent.fire s.nextTok ∈ evs) :
    ∃ v, callsFor s.nextTok (rrun evs (registerResolver now messageId timeoutMs s)) = [v] ∧
      (v = none ∨ ∃ r l1 l2, v = some r ∧
        evs = l1 ++ REvent.resolve messageId r :: l2 ∧ REvent.fire s.nextTok ∉ l1) := by
  apply pending_run evs (registerResolver now messageId timeoutMs s) hreg ?_ hfire
  refine ⟨?_, ?_, ?_, ?_, ?_, ?_, ?_⟩
  · exact mapLookup_mapSet_self s.queue messageId s.nextTok
  · intro p hp
    rcases mem_mapSet hp with h' | h'
    · intro _
      rw [h']
    · intro hc
      exact absurd hc (Nat.ne_of_lt (hq p h'.1))
  · intro t ht
    rcases List.mem_append.mp ht with h' | h'
    · exact fun hc => absurd hc (hid t h')
    · simp at h'
      intro _
      rw [h']
  · intro t ht
    rcases List.mem_append.mp ht with h' | h'
    · exact fun hc => absurd hc (Nat.ne_of_lt (hto t h'))
    · simp at h'
      intro _
      rw [h']
  · exact ⟨now + timeoutMs, List.mem_append_right _ (List.mem_singleton.mpr rfl)⟩
  · have hnil : s.calls.filter (fun c => c.1 = s.nextTok) = [] := by
      rw [List.filter_eq_nil_iff]
      intro cl hcl
      simp
      exact Nat.ne_of_lt (hcalls cl hcl)
    show (s.calls.filter (fun c => c.1 = s.nextTok)).map Prod.snd = []
    rw [hnil]
    rfl
  · exact Nat.lt_succ_self s.nextTok

/-- The witness input for the exactly-once theorem: a fresh registry, id
`"a"`, timeout 100, and a trace consisting only of the registration's own
timeout firing. -/
theorem sendMessageWithPromise_settles_exactly_once_witness :
    (∀ p ∈ rinit.queue, p.2 < rinit.nextTok) ∧
    (∀ cl ∈ rinit.calls, cl.1 < rinit.nextTok) ∧
    (∀ t ∈ rinit.timeouts, t.1 < rinit.nextTok) ∧
    (∀ t ∈ rinit.timeouts, t.2.1 ≠ "a") ∧
    (∀ k, (hk : k < [REvent.fire 0].length) →
      isRegisterOf "a" ([REvent.fire 0].get ⟨k, hk⟩) = true →
      callsFor rinit.nextTok
        (rrun ([REvent.fire 0].take k) (registerResolver 0 "a" 100 rinit)) ≠ []) ∧
    REvent.fire rinit.nextTok ∈ [REvent.fire 0] ∧
    (∃ v, callsFor rinit.nextTok (rrun [REvent.fire 0] (registerResolver 0 "a" 100 rinit)) = [v] ∧
      (v = none ∨ ∃ r l1 l2, v = some r ∧
        [REvent.fire 0] = l1 ++ REvent.resolve "a" r :: l2 ∧ REvent.fire rinit.nextTok ∉ l1)) :=
  ⟨by decide, by decide, by decide, by decide, by decide, by decide,
   sendMessageWithPromise_settles_exactly_once rinit "a" 0 100 [REvent.fire 0]
     (by decide) (by decide) (by decide) (by decide) (by decide) (by decide)⟩

/-- Claim C7: registering an id that is already registered silently
overwrites the previous entry (the id now maps to the fresh token), and the
previous resolver token is never invoked again by any subsequent event
sequence — it is orphaned, neither rejected nor settled. -/
theorem registerResolver_overwrites_and_orphans
    (s : ResolverState) (messageId : String) (tokOld : Nat) (now timeoutMs : Int)
    (evs : List REvent)
    (_hlook : mapLookup s.queue messageId = some tokOld)
    (honly : ∀ p ∈ s.queue, p.2 = tokOld → p.1 = messageId)
    (hlt : tokOld < s.nextTok) :
    mapLookup (registerResolver now messageId timeoutMs s).queue messageId = some s.nextTok ∧
    tokOld ≠ s.nextTok ∧
    callsFor tokOld (rrun evs (registerResolver now messageId timeoutMs s))
      = callsFor tokOld s := by
  refine ⟨mapLookup_mapSet_self s.queue messageId s.nextTok, Nat.ne_of_lt hlt, ?_⟩
  have horph : OrphanedTok tokOld (registerResolver now messageId timeoutMs s) := by
    refine ⟨Nat.lt_succ_of_lt hlt, ?_⟩
    intro p hp
    rcases mem_mapSet hp with h' | h'
    · rw [h']
      exact Ne.symm (Nat.ne_of_lt hlt)
    · exact fun hc => h'.2 (honly p h'.1 hc)
  rw [orphan_run evs _ horph]
  exact callsFor_only_calls tokOld s (registerResolver now messageId timeoutMs s) rfl

/-- The registry state used as the orphaning witness: `"a"` already maps to
token 0, whose timeout is still pending. -/
def orphanWitnessState : ResolverState :=
  { queue := [("a", 0)], timeouts := [(0, "a", 100)], nextTok := 1, calls := [] }

/-- Witness for the orphaning theorem: a registry already holding `"a" ↦ 0`
is re-registered for `"a"`, then resolved and fired; the old token 0 is
never invoked. -/
theorem registerResolver_overwrites_and_orphans_witness :
    mapLookup orphanWitnessState.queue "a" = some 0 ∧
    (∀ p ∈ orphanWitnessState.queue, p.2 = 0 → p.1 = "a") ∧
    0 < orphanWitnessState.nextTok ∧
    (mapLookup (registerResolver 50 "a" 100 orphanWitnessState).queue "a"
        = some orphanWitnessState.nextTok ∧
      (0 : Nat) ≠ orphanWitnessState.nextTok ∧
      callsFor 0 (rrun [REvent.fire 0, REvent.resolve "a" 7]
          (registerResolver 50 "a" 100 orphanWitnessState))
        = callsFor 0 orphanWitnessState) :=
  ⟨by decide, by decide, by decide,
   registerResolver_overwrites_and_orphans orphanWitnessState
     "a" 0 50 100 [REvent.fire 0, REvent.resolve "a" 7]
     (by decide) (by decide) (by decide)⟩

/-- Claim C9: when an id is registered twice, the first registration's stale
timer (due at 100) fires before the second registration's own deadline (150);
it finds the current entry — the second registration's resolver (token 1) —
settles it with the sentinel and removes the id early. -/
theorem stale_timeout_settles_second_registration :
    (findTimeout (rrun [REvent.register 0 "a" 100, REvent.register 50 "a" 100] rinit).timeouts 0
      = some ("a", 100)) ∧
    (findTimeout (rrun [REvent.register 0 "a" 100, REvent.register 50 "a" 100] rinit).timeouts 1
      = some ("a", 150)) ∧
    (100 : Int) < 150 ∧
    (fireTimeout 0 (rrun [REvent.register 0 "a" 100, REvent.register 50 "a" 100] rinit)).calls
      = [(1, none)] ∧
    mapLookup
      (fireTimeout 0 (rrun [REvent.register 0 "a" 100, REvent.register 50 "a" 100] rinit)).queue
      "a" = none ∧
    findTimeout
      (fireTimeout 0 (rrun [REvent.register 0 "a" 100, REvent.register 50 "a" 100] rinit)).timeouts
      1 = some ("a", 150) := by
  decide

/-! ### Client-level theorems -/

theorem crun_cons (e : CEvent) (evs : List CEvent) (c : Client) :
    crun (e :: evs) c = crun evs (cstep e c) := rfl

/-- Whether a queued item is within the age limit at flush time. -/
def withinAge (maxTime now : Int) (it : QueueItem) : Bool :=
  now - it.time ≤ maxTime

/-- The flush pass with a present socket and a nonzero age limit sends
exactly the items within the limit, in order. -/
theorem flushSend_pos (sock : Option Bool) (maxTime now : Int) (q : List QueueItem)
    (hsock : sock.isSome = true) (hmax : maxTime ≠ 0) :
    Client.flushSend sock maxTime now q
      = (q.filter (withinAge maxTime now)).map QueueItem.message := by
  induction q with
  | nil => rfl
  | cons item rest ih =>
    unfold Client.flushSend
    by_cases h : now - item.time ≤ maxTime
    · have hp : withinAge maxTime now item = true := by simpa [withinAge] using h
      rw [if_pos (Or.inr h), if_pos hsock, List.filter_cons, if_pos (by simp [hp]), ih]
      rfl
    · have hp : withinAge maxTime now item = false := by simpa [withinAge] using h
      rw [if_neg (not_or.mpr ⟨hmax, h⟩), List.filter_cons, if_neg (by simp [hp]), ih]

/-- Claim C2: at a successful (re)connection with a positive
`messageMaxQueueSeconds = T`, the open handler sends exactly the queued items
whose age is at most `T*1000` milliseconds, each once and in insertion order,
drops the older ones unsent, and empties the queue unconditionally. -/
theorem handleOpen_flushes_exactly (c : Client) (now T : Int)
    (hT : c.options.messageMaxQueueSeconds = some T) (hpos : 0 < T)
    (hsock : c.socket.isSome = true) :
    (c.handleOpen now).messageQueue = [] ∧
    (c.handleOpen now).sent
      = c.sent ++ (c.messageQueue.filter (withinAge (T * 1000) now)).map QueueItem.message := by
  have hmax : T * 1000 ≠ 0 := by positivity
  refine ⟨rfl, ?_⟩
  show c.sent ++ Client.flushSend c.socket ((c.options.messageMaxQueueSeconds.getD 0) * 1000)
      now c.messageQueue = _
  rw [hT, Option.getD_some, flushSend_pos c.socket (T * 1000) now c.messageQueue hsock hmax]

/-- The witness client for the flush theorem: queueing on, a 5-second age
limit, one fresh and one stale queued item, a live socket handle. -/
def flushWitnessClient : Client :=
  { options := { reconnectIntervalSeconds := some 30, messageQueueing := some true
                 messageMaxQueueSeconds := some 5 }
    socket := some true, connected := false
    messageQueue := [⟨0, "a"⟩, ⟨10000, "b"⟩]
    storedHandle := 1, liveTimers := [1], nextHandle := 2, resolver := rinit
    shouldReconnect := true, sent := [], connectAttempts := 1 }

/-- Witness for the flush theorem: at `now = 12000` the item enqueued at 0 is
stale (age 12 s > 5 s) and dropped, the item enqueued at 10000 is sent, and
the queue is empty afterwards. -/
theorem handleOpen_flushes_exactly_witness :
    flushWitnessClient.options.messageMaxQueueSeconds = some 5 ∧
    (0 : Int) < 5 ∧
    flushWitnessClient.socket.isSome = true ∧
    ((flushWitnessClient.handleOpen 12000).messageQueue = [] ∧
      (flushWitnessClient.handleOpen 12000).sent
        = flushWitnessClient.sent ++ (flushWitnessClient.messageQueue.filter
            (withinAge (5 * 1000) 12000)).map QueueItem.message) :=
  ⟨rfl, by decide, rfl,
   handleOpen_flushes_exactly flushWitnessClient 12000 5 rfl (by decide) rfl⟩

/-- Claim C5: with queueing disabled (false or unset) and no connection,
`send` changes nothing at all: no queueing, no transmission. -/
theorem send_disconnected_no_queueing_drops (c : Client) (now : Int) (body : String)
    (hconn : c.connected = false)
    (hq : c.options.messageQueueing.getD false = false) :
    c.send now body = c := by
  simp [Client.send, hconn, hq]

/-- The witness client for the silent-drop theorem: fresh, disconnected,
`messageQueueing` unset. -/
def dropWitnessClient : Client :=
  mkClient { reconnectIntervalSeconds := none, messageQueueing := none
             messageMaxQueueSeconds := none }

/-- Witness for the silent-drop theorem. -/
theorem send_disconnected_no_queueing_drops_witness :
    dropWitnessClient.connected = false ∧
    dropWitnessClient.options.messageQueueing.getD false = false ∧
    dropWitnessClient.send 5 "hello" = dropWitnessClient :=
  ⟨rfl, rfl, send_disconnected_no_queueing_drops dropWitnessClient 5 "hello" rfl rfl⟩

/-! ### Timer invariant -/

/-- The runtime's live interval timers are exactly captured by the stored
handle: either none, or the one stored in `#reconnectIntervalHandle`. -/
def timerWf (c : Client) : Prop :=
  c.liveTimers = [] ∨ c.liveTimers = [c.storedHandle]

/-- A client that agrees with another on the timer fields inherits `timerWf`. -/
theorem timerWf_of_eq (c c' : Client) (hl : c'.liveTimers = c.liveTimers)
    (hs : c'.storedHandle = c.storedHandle) (h : timerWf c) : timerWf c' := by
  unfold timerWf at h ⊢
  rw [hl, hs]
  exact h

theorem stopConnectLoop_timers (c : Client) (h : timerWf c) :
    (c.stopConnectLoop).liveTimers = [] := by
  rcases h with h | h <;> simp [Client.stopConnectLoop, h]

theorem startConnectLoop_liveTimers (immediate : Bool) (c : Client) :
    (c.startConnectLoop immediate).liveTimers
      = (c.stopConnectLoop).liveTimers ++ [c.nextHandle] := by
  cases immediate <;> rfl

theorem startConnectLoop_storedHandle (immediate : Bool) (c : Client) :
    (c.startConnectLoop immediate).storedHandle = c.nextHandle := by
  cases immediate <;> rfl

theorem startConnectLoop_timerWf (immediate : Bool) (c : Client) (h : timerWf c) :
    timerWf (c.startConnectLoop immediate) := by
  refine Or.inr ?_
  rw [startConnectLoop_liveTimers, startConnectLoop_storedHandle,
    stopConnectLoop_timers c h]
  rfl

theorem send_timer_fields (now : Int) (body : String) (c : Client) :
    (c.send now body).liveTimers = c.liveTimers ∧
    (c.send now body).storedHandle = c.storedHandle := by
  unfold Client.send
  by_cases hc : c.connected = true
  · simp [hc]
  · by_cases hq : c.options.messageQueueing.getD false = true <;> simp [hc, hq]

theorem cstep_timerWf (e : CEvent) (c : Client) (h : timerWf c) :
    timerWf (cstep e c) := by
  cases e with
  | init => exact startConnectLoop_timerWf true { c with shouldReconnect := true } h
  | reconnect =>
    exact startConnectLoop_timerWf true
      { c with shouldReconnect := true, socket := closeSocket c.socket } h
  | disconnect =>
    exact Or.inl (stopConnectLoop_timers { c with shouldReconnect := false } h)
  | send now body =>
    obtain ⟨hl, hs⟩ := send_timer_fields now body c
    exact timerWf_of_eq c (c.send now body) hl hs h
  | tick hh =>
    show timerWf (c.tick hh)
    unfold Client.tick
    by_cases hmem : hh ∈ c.liveTimers
    · rw [if_pos hmem]
      exact timerWf_of_eq c (c.connect) rfl rfl h
    · rw [if_neg hmem]
      exact h
  | sockOpen now =>
    exact Or.inl (stopConnectLoop_timers { c with connected := true } h)
  | sockClose =>
    show timerWf c.handleClose
    unfold Client.handleClose
    by_cases hr : c.shouldReconnect = true
    · rw [if_pos hr]
      exact startConnectLoop_timerWf false { c with connected := false } h
    · rw [if_neg hr]
      exact h
  | sockError =>
    exact startConnectLoop_timerWf false { c with socket := closeSocket c.socket } h
  | sockMessage => exact h
  | sendWithPromise now body messageId timeoutMs =>
    show timerWf (Client.send now body
      { c with resolver := registerResolver now messageId timeoutMs c.resolver })
    obtain ⟨hl, hs⟩ := send_timer_fields now body
      { c with resolver := registerResolver now messageId timeoutMs c.resolver }
    exact timerWf_of_eq c _ hl hs h
  | resolveP messageId result => exact h
  | rfire tok => exact h

/-- Claim C6: starting from a fresh client, any sequence of operations and
events leaves at most one live reconnect interval timer, because every start
cancels the stored timer first. -/
theorem at_most_one_reconnect_timer (opts : ClientOptions) (evs : List CEvent) :
    ((crun evs (mkClient opts)).liveTimers).length ≤ 1 := by
  have hwf : ∀ (c : Client), timerWf c → timerWf (crun evs c) := by
    induction evs with
    | nil => exact fun c h => h
    | cons e rest ih =>
      intro c h
      rw [crun_cons]
      exact ih (cstep e c) (cstep_timerWf e c h)
  rcases hwf (mkClient opts) (Or.inl rfl) with h | h <;> simp [h]

/-- Claim C10 (frame effect of `disconnect`): only the reconnect flag, the
interval timer and the socket handle change; the outbound queue, the resolver
registry (including its pending timeouts), the connected flag, the sent log
and the options are untouched. -/
theorem disconnect_frame (c : Client) :
    (c.disconnect).messageQueue = c.messageQueue ∧
    (c.disconnect).resolver = c.resolver ∧
    (c.disconnect).connected = c.connected ∧
    (c.disconnect).sent = c.sent ∧
    (c.disconnect).options = c.options ∧
    (c.disconnect).connectAttempts = c.connectAttempts ∧
    (c.disconnect).nextHandle = c.nextHandle ∧
    (c.disconnect).shouldReconnect = false ∧
    (c.disconnect).socket = none :=
  ⟨rfl, rfl, rfl, rfl, rfl, rfl, rfl, rfl, rfl⟩

/-! ### Error handling: what the `onError` handler actually does -/

/-- A demonstration client: connected-flag false, reconnect enabled, one live
interval timer (handle 1), socket handle present, three attempts so far. -/
def errDemoClient : Client :=
  { options := { reconnectIntervalSeconds := some 30, messageQueueing := some false
                 messageMaxQueueSeconds := some 0 }
    socket := some true, connected := false, messageQueue := []
    storedHandle := 1, liveTimers := [1], nextHandle := 2, resolver := rinit
    shouldReconnect := true, sent := [], connectAttempts := 3 }

/-- Counterexample to claim C3: with the reconnect flag true, handling a
socket error restarts the interval timer but performs no immediate
connection attempt — `connect()` is not executed (the attempt counter is
unchanged), so a full reconnect interval does elapse before the next
attempt. -/
theorem handleError_no_immediate_attempt :
    errDemoClient.shouldReconnect = true ∧
    (errDemoClient.handleError).connectAttempts = errDemoClient.connectAttempts ∧
    (errDemoClient.handleError).liveTimers = [errDemoClient.nextHandle] := by
  decide

/-- Claim C3 (amended): on a socket error the client force-closes the socket
and restarts the reconnect interval (fresh stored handle), but makes no
immediate connection attempt — the next attempt waits for the next interval
tick.  This holds regardless of the reconnect flag. -/
theorem handleError_closes_and_restarts (c : Client) (h : timerWf c) :
    (c.handleError).socket = closeSocket c.socket ∧
    (c.handleError).liveTimers = [c.nextHandle] ∧
    (c.handleError).storedHandle = c.nextHandle ∧
    (c.handleError).connectAttempts = c.connectAttempts := by
  refine ⟨rfl, ?_, ?_, rfl⟩
  · show (Client.startConnectLoop false { c with socket := closeSocket c.socket }).liveTimers
      = [c.nextHandle]
    rw [startConnectLoop_liveTimers]
    rw [stopConnectLoop_timers { c with socket := closeSocket c.socket } h]
    rfl
  · exact startConnectLoop_storedHandle false { c with socket := closeSocket c.socket }

/-- Witness for the amended error-handling theorem at the demonstration
client. -/
theorem handleError_closes_and_restarts_witness :
    timerWf errDemoClient ∧
    ((errDemoClient.handleError).socket = closeSocket errDemoClient.socket ∧
      (errDemoClient.handleError).liveTimers = [errDemoClient.nextHandle] ∧
      (errDemoClient.handleError).storedHandle = errDemoClient.nextHandle ∧
      (errDemoClient.handleError).connectAttempts = errDemoClient.connectAttempts) :=
  ⟨Or.inr rfl, handleError_closes_and_restarts errDemoClient (Or.inr rfl)⟩

/-- Counterexample to claim C4: after `init()` then `disconnect()` the timer
set is empty and the reconnect flag is false, yet a subsequent socket error
event restarts the reconnect timer — disconnection is not terminal under
error events. -/
theorem disconnect_not_terminal_under_error :
    (crun [CEvent.init, CEvent.disconnect] (mkClient errDemoClient.options)).shouldReconnect
      = false ∧
    (crun [CEvent.init, CEvent.disconnect] (mkClient errDemoClient.options)).liveTimers = [] ∧
    (crun [CEvent.init, CEvent.disconnect, CEvent.sockError]
        (mkClient errDemoClient.options)).liveTimers ≠ [] := by
  decide

/-- Claim C4 (amended): after `disconnect()` the reconnect flag is false and
no timer is live; a socket close event then only marks the client
disconnected (no timer restart, no attempt), and a timer tick is impossible
(no live timer) — but a socket error event does restart the reconnect timer
despite the cleared flag. -/
theorem disconnect_inert_except_error (c : Client) (hh : Nat) (h : timerWf c) :
    (c.disconnect).shouldReconnect = false ∧
    (c.disconnect).liveTimers = [] ∧
    (c.disconnect).handleClose = { c.disconnect with connected := false } ∧
    ((c.disconnect).handleClose).connectAttempts = c.connectAttempts ∧
    ((c.disconnect).handleClose).liveTimers = [] ∧
    (c.disconnect).tick hh = c.disconnect ∧
    ((c.disconnect).handleError).liveTimers = [(c.disconnect).nextHandle] := by
  have hlt : (c.disconnect).liveTimers = [] :=
    stopConnectLoop_timers { c with shouldReconnect := false } h
  have hclose : (c.disconnect).handleClose = { c.disconnect with connected := false } := by
    unfold Client.handleClose
    rw [if_neg]
    intro hc
    exact Bool.noConfusion hc
  refine ⟨rfl, hlt, hclose, ?_, ?_, ?_, ?_⟩
  · rw [hclose]
    rfl
  · rw [hclose]
    exact hlt
  · unfold Client.tick
    rw [if_neg]
    intro hmem
    rw [hlt] at hmem
    exact List.not_mem_nil hh hmem
  · show (Client.startConnectLoop false
        { c.disconnect with socket := closeSocket (c.disconnect).socket }).liveTimers = _
    rw [startConnectLoop_liveTimers]
    rw [stopConnectLoop_timers
      { c.disconnect with socket := closeSocket (c.disconnect).socket } (Or.inl hlt)]
    rfl

/-- Witness for the amended disconnect theorem at the demonstration client
and tick handle 1 (the handle that was live before `disconnect()`). -/
theorem disconnect_inert_except_error_witness :
    timerWf errDemoClient ∧
    ((errDemoClient.disconnect).shouldReconnect = false ∧
      (errDemoClient.disconnect).liveTimers = [] ∧
      (errDemoClient.disconnect).handleClose
        = { errDemoClient.disconnect with connected := false } ∧
      ((errDemoClient.disconnect).handleClose).connectAttempts
        = errDemoClient.connectAttempts ∧
      ((errDemoClient.disconnect).handleClose).liveTimers = [] ∧
      (errDemoClient.disconnect).tick 1 = errDemoClient.disconnect ∧
      ((errDemoClient.disconnect).handleError).liveTimers
        = [(errDemoClient.disconnect).nextHandle]) :=
  ⟨Or.inr rfl, disconnect_inert_except_error errDemoClient 1 (Or.inr rfl)⟩

/-! ### Uniqueness of generated ids (`SerializedId`) -/

/-- Value of a little-endian base-10 digit list. -/
def valRev : List Nat → Nat
  | [] => 0
  | d :: ds => d + 10 * valRev ds

theorem valRev_decDigitsRev (fuel n : Nat) (h : n ≤ fuel) :
    valRev (decDigitsRev fuel n) = n := by
  induction fuel generalizing n with
  | zero =>
    have : n = 0 := Nat.le_zero.mp h
    simp [this, decDigitsRev, valRev]
  | succ f ih =>
    by_cases hn : n = 0
    · simp [decDigitsRev, hn, valRev]
    · simp only [decDigitsRev, if_neg hn, valRev]
      have hdiv : n / 10 ≤ f := by
        have h1 : n / 10 < n := Nat.div_lt_self (Nat.pos_of_ne_zero hn) (by norm_num)
        omega
      rw [ih (n / 10) hdiv]
      omega

theorem decDigitsRev_lt_ten (fuel n : Nat) : ∀ d ∈ decDigitsRev fuel n, d < 10 := by
  induction fuel generalizing n with
  | zero => simp [decDigitsRev]
  | succ f ih =>
    by_cases hn : n = 0
    · simp [decDigitsRev, hn]
    · simp only [decDigitsRev, if_neg hn]
      intro d hd
      rcases List.mem_cons.mp hd with h | h
      · rw [h]
        exact Nat.mod_lt n (by norm_num)
      · exact ih (n / 10) d h

theorem digitChar_injOn :
    ∀ a, a < 10 → ∀ b, b < 10 → Nat.digitChar a = Nat.digitChar b → a = b := by decide

theorem map_digitChar_inj : ∀ l1 l2 : List Nat, (∀ d ∈ l1, d < 10) → (∀ d ∈ l2, d < 10) →
    l1.map Nat.digitChar = l2.map Nat.digitChar → l1 = l2 := by
  intro l1
  induction l1 with
  | nil =>
    intro l2 _ _ h
    cases l2 with
    | nil => rfl
    | cons b t2 => simp at h
  | cons a t ih =>
    intro l2 h1 h2 h
    cases l2 with
    | nil => simp at h
    | cons b t2 =>
      simp only [List.map_cons, List.cons.injEq] at h
      obtain ⟨hab, ht⟩ := h
      have hA : a = b := digitChar_injOn a (h1 a (List.mem_cons_self a t)) b
        (h2 b (List.mem_cons_self b t2)) hab
      rw [hA, ih t2 (fun d hd => h1 d (List.mem_cons_of_mem a hd))
        (fun d hd => h2 d (List.mem_cons_of_mem b hd)) ht]

theorem map_digitChar_eq_singleton {l : List Nat} {c : Char}
    (h : l.map Nat.digitChar = [c]) : ∃ d, l = [d] ∧ Nat.digitChar d = c := by
  cases l with
  | nil => simp at h
  | cons x xs =>
    cases xs with
    | nil =>
      simp only [List.map_cons, List.map_nil, List.cons.injEq, and_true] at h
      exact ⟨x, rfl, h⟩
    | cons y ys => simp at h

theorem natLiteral_zero_lit {b : Nat} (h : String.mk ['0'] = natLiteral b) : b = 0 := by
  by_contra hb
  rw [natLiteral, if_neg hb] at h
  have hd : ['0'] = (decDigitsRev b b).reverse.map Nat.digitChar := congrArg String.data h
  obtain ⟨d, hrd, hdc⟩ := map_digitChar_eq_singleton hd.symm
  have hlist : decDigitsRev b b = [d] := by
    have := congrArg List.reverse hrd
    simpa using this
  have hd10 : d < 10 :=
    decDigitsRev_lt_ten b b d (by rw [hlist]; exact List.mem_singleton_self d)
  have hd0 : d = 0 := digitChar_injOn d hd10 0 (by norm_num) (by rw [hdc]; rfl)
  have hv := valRev_decDigitsRev b b (Nat.le_refl b)
  rw [hlist, hd0] at hv
  simp [valRev] at hv
  exact hb hv.symm

theorem natLiteral_zero : natLiteral 0 = String.mk ['0'] := rfl

theorem natLiteral_injective (a b : Nat) (h : natLiteral a = natLiteral b) : a = b := by
  by_cases ha : a = 0
  · subst ha
    rw [natLiteral_zero] at h
    exact (natLiteral_zero_lit h).symm
  · by_cases hb : b = 0
    · subst hb
      rw [natLiteral_zero] at h
      exact natLiteral_zero_lit h.symm
    · rw [natLiteral, if_neg ha, natLiteral, if_neg hb] at h
      have hd : (decDigitsRev a a).reverse.map Nat.digitChar
          = (decDigitsRev b b).reverse.map Nat.digitChar := congrArg String.data h
      have hrev : (decDigitsRev a a).reverse = (decDigitsRev b b).reverse :=
        map_digitChar_inj _ _
          (fun d hd' => decDigitsRev_lt_ten a a d (List.mem_reverse.mp hd'))
          (fun d hd' => decDigitsRev_lt_ten b b d (List.mem_reverse.mp hd')) hd
      have hlist : decDigitsRev a a = decDigitsRev b b := by
        have := congrArg List.reverse hrev
        simpa using this
      have hva := valRev_decDigitsRev a a (Nat.le_refl a)
      have hvb := valRev_decDigitsRev b b (Nat.le_refl b)
      rw [hlist] at hva
      rw [hvb] at hva
      exact hva.symm

/-- The fixed per-scope label every generated id of that scope starts with. -/
def labelOf (tag : Option String) : String :=
  match tag with
  | some t => if t.data.isEmpty then "message-id-" else kebabCase (jsTrim t) ++ "-"
  | none => "message-id-"

theorem next_fst (tag : Option String) (s : SerializedIdState) :
    (SerializedId.next tag s).1 = labelOf tag ++ natLiteral (s.idx + 1) := by
  cases tag with
  | none => rfl
  | some t =>
    by_cases he : t.data.isEmpty
    · simp [SerializedId.next, labelOf, he]
    · simp [SerializedId.next, labelOf, he]

theorem iterate_nextState_idx (tag : Option String) (s : SerializedIdState) (i : Nat) :
    ((SerializedId.nextState tag)^[i] s).idx = s.idx + i := by
  induction i with
  | zero => rfl
  | succ k ih =>
    rw [Function.iterate_succ_apply']
    show ((SerializedId.nextState tag)^[k] s).idx + 1 = s.idx + (k + 1)
    omega

theorem idAtCall_eq (tag : Option String) (s : SerializedIdState) (i : Nat) :
    SerializedId.idAtCall tag s i = labelOf tag ++ natLiteral (s.idx + i + 1) := by
  unfold SerializedId.idAtCall
  rw [next_fst, iterate_nextState_idx]

/-- Claim C8: `SerializedId.next` strictly increments its counter, and any
two distinct calls with the same scope tag produce distinct id strings —
the fixed normalized label (or the `message-id` fallback) concatenated with
the strictly increasing counter. -/
theorem serializedId_unique_per_scope (tag : Option String) (s : SerializedIdState)
    (i j : Nat) (hij : i ≠ j) :
    (SerializedId.next tag s).2.idx = s.idx + 1 ∧
    SerializedId.idAtCall tag s i ≠ SerializedId.idAtCall tag s j := by
  refine ⟨rfl, ?_⟩
  rw [idAtCall_eq, idAtCall_eq]
  intro h
  have hd := congrArg String.data h
  rw [String.data_append, String.data_append] at hd
  have hsuffix := List.append_cancel_left hd
  have hnat : natLiteral (s.idx + i + 1) = natLiteral (s.idx + j + 1) := String.ext hsuffix
  have := natLiteral_injective _ _ hnat
  omega

/-- Witness for the id-uniqueness theorem: scope `"My Client"`, counter at 0,
calls 0 and 1 (producing `my-client-1` and `my-client-2`). -/
theorem serializedId_unique_per_scope_witness :
    (0 : Nat) ≠ 1 ∧
    ((SerializedId.next (some "My Client") ⟨0⟩).2.idx = 0 + 1 ∧
      SerializedId.idAtCall (some "My Client") ⟨0⟩ 0
        ≠ SerializedId.idAtCall (some "My Client") ⟨0⟩ 1) :=
  ⟨by decide, serializedId_unique_per_scope (some "My Client") ⟨0⟩ 0 1 (by decide)⟩

end SharedUtils
